import Mathlib

/-!
Verification development for the family-tree relationship graph engine
(`tree-core-canvas.js`).

The engine state is shallowly embedded: JavaScript `Map`s become
insertion-ordered association lists (JS `Map` preserves insertion order and
`set` on an existing key updates in place), JS `Set`s become duplicate-free
insertion-ordered lists, JS strings become `String`, and numeric fields that
the claims observe only through equality become `Int`/`Nat`.  JS string
truthiness (`s || t`) is modelled by `jsOr`: the empty string is the only
falsy string.  Record fields that the source leaves `undefined` are modelled
as the empty string when the source itself collapses `undefined` and the
empty string (every read of those fields in the source goes through
`x || ""` or a truthiness test), and as `Option` when the distinction is
observable.
-/

/-- String comparison is decided list-wise so that the kernel can evaluate
the model on concrete inputs (the ambient iterator-based decision procedure
is defined by well-founded recursion and does not reduce); the ordering
itself is unchanged. -/
instance (priority := 5000) decLtStringByList (s t : String) :
    Decidable (s < t) :=
  decidable_of_iff (s.toList < t.toList) String.lt_iff_toList_lt.symm

/-- Helper for `splitOnChar`: accumulate the current segment (reversed). -/
def splitOnCharAux (sep : Char) : List Char → List Char → List (List Char)
  | [], acc => [acc.reverse]
  | c :: rest, acc =>
    if c = sep then acc.reverse :: splitOnCharAux sep rest []
    else splitOnCharAux sep rest (c :: acc)

/-- JS `s.split(sep)` for a single-character separator: always at least one
segment, empty segments kept — splitting an empty string gives one empty
segment, and a leading, trailing or doubled separator yields empty
segments. -/
def splitOnChar (sep : Char) (s : String) : List String :=
  (splitOnCharAux sep s.data []).map (fun l => String.mk l)

/-- One `personData` record: the relational store entry created by
`processLoadedData` / `handleSavePersonFromModal`.  Absent relational ids are
the empty string, exactly as every write site normalises them
(`person.motherId || ""`). -/
structure PersonData where
  name : String := ""
  fatherName : String := ""
  surname : String := ""
  maidenName : String := ""
  dob : String := ""
  gender : String := ""
  motherId : String := ""
  fatherId : String := ""
  spouseId : String := ""
deriving Repr, DecidableEq, Inhabited

/-- One renderer node (`this.renderer.nodes` entry), as built by
`processLoadedData` / `handleSavePersonFromModal`.  Coordinates are modelled
as integers: the claims observe them only through equality. -/
structure Node where
  x : Int := 0
  y : Int := 0
  name : String := ""
  fatherName : String := ""
  surname : String := ""
  maidenName : String := ""
  dob : String := ""
  gender : String := ""
  color : String := ""
  radius : Int := 0
deriving Repr, DecidableEq, Inhabited

/-- A derived renderable edge, `renderer.addConnection(from, to, type)`.
`from` is a Lean keyword, so the fields are `fromId` / `toId`. -/
structure Conn where
  fromId : String
  toId : String
  type : String
deriving Repr, DecidableEq, Inhabited

/-- Camera state `{x, y, scale}`.  The claims never do arithmetic on it, so
integer components suffice. -/
structure Camera where
  x : Int := 0
  y : Int := 0
  scale : Int := 1
deriving Repr, DecidableEq, Inhabited

/-- `this.displayPreferences`. -/
structure DisplayPrefs where
  showMaidenName : Bool := true
  showDateOfBirth : Bool := true
  showFatherName : Bool := true
deriving Repr, DecidableEq, Inhabited

/-- The engine-owned style knobs saved in the `settings` block of a snapshot
(`nodeRadius` … `dateColor` live directly on the controller).  The
renderer-owned line/outline style knobs are external RenderSurface state that
no claim observes and are not modelled. -/
structure Settings where
  nodeRadius : Int := 50
  defaultColor : String := "#3498db"
  fontFamily : String := "Inter"
  fontSize : Int := 11
  nameColor : String := "#ffffff"
  dateColor : String := "#f0f0f0"
deriving Repr, DecidableEq, Inhabited

/-- A history snapshot pushed by `pushUndoState` (value view: `new Map`,
`{...node}`, `new Set`, `{...prefs}` copies).  Reference sharing of the
person records, which the value view cannot express, is treated separately
in `HeapModel`. -/
structure Snapshot where
  nodes : List (String × Node)
  personData : List (String × PersonData)
  camera : Camera
  hiddenConnections : List String
  lineOnlyConnections : List String
  displayPreferences : DisplayPrefs
  nodeStyle : String
  settings : Settings
deriving Repr, DecidableEq, Inhabited

/-- The whole mutable engine state owned by `TreeCoreCanvas`. -/
structure AppState where
  personData : List (String × PersonData) := []
  hiddenConnections : List String := []
  lineOnlyConnections : List String := []
  nodes : List (String × Node) := []
  connections : List Conn := []
  camera : Camera := {}
  displayPreferences : DisplayPrefs := {}
  nodeStyle : String := "circle"
  settings : Settings := {}
  nextId : Nat := 1
  undoStack : List Snapshot := []
  redoStack : List Snapshot := []
deriving Repr, DecidableEq, Inhabited

/-- JS `Map.get`: the value at the first (and in a real `Map` only)
occurrence of the key. -/
def lookupA {α : Type} (l : List (String × α)) (k : String) : Option α :=
  (l.find? (fun p => p.1 == k)).map (fun p => p.2)

/-- JS `Map.set`: update in place when the key exists, append otherwise. -/
def setA {α : Type} : List (String × α) → String → α → List (String × α)
  | [], k, v => [(k, v)]
  | (k1, v1) :: t, k, v =>
    if k1 == k then (k, v) :: t else (k1, v1) :: setA t k v

/-- JS `Map.has` / `renderer.nodes.has`. -/
def containsKey {α : Type} (l : List (String × α)) (k : String) : Bool :=
  l.any (fun p => p.1 == k)

/-- JS `Set` built from a list (`new Set(array)`): keeps the first occurrence
of each element, in insertion order. -/
def jsSetOf (xs : List String) : List String :=
  xs.foldl (fun acc x => if acc.contains x then acc else acc ++ [x]) []

/-- JS `a || b` on strings: the empty string is the only falsy string. -/
def jsOr (a b : String) : String :=
  if a ≠ "" then a else b

/-- JS `a || b` on numbers restricted to the integer values the claims use:
`0` is falsy. -/
def jsOrI (a b : Int) : Int :=
  if a ≠ 0 then a else b

/-- `this.maxUndoSize` (constructor constant). -/
def maxUndoSize : Nat := 50

/-- `this.cacheVersion` (constructor constant). -/
def cacheVersion : String := "2.6"

/-- `this.cacheKey` (constructor constant). -/
def cacheKey : String := "familyTreeCanvas_state"

/-- `getConnectionKey(id1, id2)`: canonical pair-key, lexicographically
smaller id first. -/
def getConnectionKey (id1 id2 : String) : String :=
  if id1 < id2 then id1 ++ "-" ++ id2 else id2 ++ "-" ++ id1

/-- The mother block of one iteration of the
`for (const [childId, childData] of this.personData)` loop of
`regenerateConnections` (lines 876-889).  The skipped-connection diagnostic
counter is not modelled (no claim observes it). -/
def motherConns (hidden : List String) (nodes : List (String × Node))
    (childId : String) (childData : PersonData) : List Conn :=
  if childData.motherId ≠ "" then
    let connectionKey := getConnectionKey childId childData.motherId
    if ¬ hidden.contains connectionKey then
      if containsKey nodes childId ∧ containsKey nodes childData.motherId then
        [⟨childId, childData.motherId, "parent"⟩]
      else []
    else []
  else []

/-- The father block of the same loop (lines 892-905). -/
def fatherConns (hidden : List String) (nodes : List (String × Node))
    (childId : String) (childData : PersonData) : List Conn :=
  if childData.fatherId ≠ "" then
    let connectionKey := getConnectionKey childId childData.fatherId
    if ¬ hidden.contains connectionKey then
      if containsKey nodes childId ∧ containsKey nodes childData.fatherId then
        [⟨childId, childData.fatherId, "parent"⟩]
      else []
    else []
  else []

/-- The spouse block of the same loop (lines 907-921): emit only from the
side whose id sorts before the partner, and never for a self-spouse. -/
def spouseConns (hidden : List String) (nodes : List (String × Node))
    (childId : String) (childData : PersonData) : List Conn :=
  if childData.spouseId ≠ "" ∧ childData.spouseId ≠ childId ∧
      childId < childData.spouseId then
    let connectionKey := getConnectionKey childId childData.spouseId
    if ¬ hidden.contains connectionKey then
      if containsKey nodes childId ∧ containsKey nodes childData.spouseId then
        [⟨childId, childData.spouseId, "spouse"⟩]
      else []
    else []
  else []

/-- The whole loop body: mother, father and spouse edges in emission order,
and the record after the trailing self-spouse cleanup (lines 923-928). -/
def regenStep (hidden : List String) (nodes : List (String × Node))
    (childId : String) (childData : PersonData) : List Conn × PersonData :=
  let childData1 :=
    if childData.spouseId = childId then { childData with spouseId := "" }
    else childData
  (motherConns hidden nodes childId childData ++
     fatherConns hidden nodes childId childData ++
     spouseConns hidden nodes childId childData,
   childData1)

/-- The person loop of `regenerateConnections`: edges in visit order plus the
store after in-loop self-spouse cleanup.  The loop reads only the current
entry and never another record, so visiting the original entries in order is
faithful to iterating the live `Map`. -/
def regenPersons (hidden : List String) (nodes : List (String × Node)) :
    List (String × PersonData) → List Conn × List (String × PersonData)
  | [] => ([], [])
  | (cid, d) :: rest =>
    let step := regenStep hidden nodes cid d
    let restR := regenPersons hidden nodes rest
    (step.1 ++ restR.1, (cid, step.2) :: restR.2)

/-- One iteration of the line-only loop (lines 933-949): JS
`const [id1, id2] = connectionKey.split(dash)` takes the first two split
parts; a missing second part is `undefined`, and `nodes.has(undefined)` is
false, so the edge is skipped. -/
def lineOnlyStep (hidden : List String) (nodes : List (String × Node))
    (connectionKey : String) : List Conn :=
  if ¬ hidden.contains connectionKey then
    match splitOnChar '-' connectionKey with
    | id1 :: id2 :: _ =>
      if containsKey nodes id1 ∧ containsKey nodes id2 then
        [⟨id1, id2, "line-only"⟩]
      else []
    | _ => []
  else []

/-- The `for (const connectionKey of this.lineOnlyConnections)` loop. -/
def lineOnlyLoop (hidden : List String) (nodes : List (String × Node)) :
    List String → List Conn
  | [] => []
  | k :: rest => lineOnlyStep hidden nodes k ++ lineOnlyLoop hidden nodes rest

/-- `regenerateConnections()` (lines 845-964): clear the edge list; return
early when the store is absent or empty; otherwise rebuild parent, spouse and
line-only edges and apply the in-loop self-spouse cleanup to the store. -/
def regenerateConnections (s : AppState) : AppState :=
  if s.personData.isEmpty then { s with connections := [] }
  else
    let pcs := regenPersons s.hiddenConnections s.nodes s.personData
    let lcs := lineOnlyLoop s.hiddenConnections s.nodes s.lineOnlyConnections
    { s with personData := pcs.2, connections := pcs.1 ++ lcs }

/-- The per-record body of `cleanupInvalidRelationships` (lines 2250-2280):
clear self-spouse, self-mother, self-father, counting each correction. -/
def cleanRecord (personId : String) (d : PersonData) : PersonData × Nat :=
  let r1 :=
    if d.spouseId = personId then ({ d with spouseId := "" }, 1) else (d, 0)
  let r2 :=
    if r1.1.motherId = personId then
      ({ r1.1 with motherId := "" }, r1.2 + 1)
    else r1
  let r3 :=
    if r2.1.fatherId = personId then
      ({ r2.1 with fatherId := "" }, r2.2 + 1)
    else r2
  r3

/-- The record loop of `cleanupInvalidRelationships`. -/
def cleanupPass : List (String × PersonData) → List (String × PersonData) × Nat
  | [] => ([], 0)
  | (pid, d) :: rest =>
    let r := cleanRecord pid d
    let restR := cleanupPass rest
    ((pid, r.1) :: restR.1, r.2 + restR.2)

/-- `cleanupInvalidRelationships()` (lines 2248-2289): clean every record,
and when anything was corrected regenerate the connections.  Returns the new
state and the reported correction count. -/
def cleanupInvalidRelationships (s : AppState) : AppState × Nat :=
  let r := cleanupPass s.personData
  let s1 := { s with personData := r.1 }
  if r.2 > 0 then (regenerateConnections s1, r.2) else (s1, r.2)

/-- Value view of one history snapshot, `pushUndoState` lines 1222-1263.  The
JS code copies the node map per node (`{...node}`), copies both suppression
sets (`new Set`), the preferences (`{...}`) and the `personData` map
(`new Map(this.personData || [])`); under value semantics all of these are
the current values. -/
def mkSnapshot (s : AppState) : Snapshot :=
  { nodes := s.nodes
    personData := s.personData
    camera := s.camera
    hiddenConnections := s.hiddenConnections
    lineOnlyConnections := s.lineOnlyConnections
    displayPreferences := s.displayPreferences
    nodeStyle := s.nodeStyle
    settings := s.settings }

/-- The stack update of `pushUndoState` (lines 1265-1268): `push`, then
`shift` once when the length exceeds `maxUndoSize`. -/
def pushOne (u : List Snapshot) (st : Snapshot) : List Snapshot :=
  let u1 := u ++ [st]
  if u1.length > maxUndoSize then u1.drop 1 else u1

/-- `pushUndoState()` (lines 1222-1279): snapshot the mutable state, push it
with the FIFO cap, clear the redo stack.  The debounced auto-save it
schedules is a storage effect outside this state model. -/
def pushUndoState (s : AppState) : AppState :=
  { s with
    undoStack := pushOne s.undoStack (mkSnapshot s)
    redoStack := [] }

/-- One element of the persisted `persons` array, as written by
`getCurrentState` (lines 492-509). -/
structure SavedPerson where
  id : String := ""
  x : Int := 0
  y : Int := 0
  name : String := ""
  fatherName : String := ""
  surname : String := ""
  maidenName : String := ""
  dob : String := ""
  gender : String := ""
  color : String := ""
  radius : Int := 0
  motherId : String := ""
  fatherId : String := ""
  spouseId : String := ""
deriving Repr, DecidableEq, Inhabited

/-- The full persisted snapshot built by `getCurrentState` (lines 521-573).
The renderer-owned line-style knobs inside `settings` are not modelled (see
`Settings`). -/
structure SavedState where
  version : String
  timestamp : Nat
  cacheFormat : String
  settings : Settings
  displayPreferences : DisplayPrefs
  nodeStyle : String
  camera : Camera
  hiddenConnections : List String
  lineOnlyConnections : List String
  persons : List SavedPerson
  personDataBackup : List (String × PersonData)
  currentConnections : List Conn
  nextId : Nat
deriving Repr, DecidableEq, Inhabited

/-- `getCurrentState()` (lines 482-584). -/
def getCurrentState (s : AppState) (now : Nat) : SavedState :=
  let personsWithRelationships := s.nodes.map (fun p =>
    let id := p.1
    let node := p.2
    let personData := (lookupA s.personData id).getD {}
    ({ id := id
       x := node.x
       y := node.y
       name := jsOr node.name (jsOr personData.name "")
       fatherName := jsOr node.fatherName (jsOr personData.fatherName "")
       surname := jsOr node.surname (jsOr personData.surname "")
       maidenName := jsOr node.maidenName (jsOr personData.maidenName "")
       dob := jsOr node.dob (jsOr personData.dob "")
       gender := jsOr node.gender (jsOr personData.gender "")
       color := jsOr node.color s.settings.defaultColor
       radius := jsOrI node.radius s.settings.nodeRadius
       motherId := jsOr personData.motherId ""
       fatherId := jsOr personData.fatherId ""
       spouseId := jsOr personData.spouseId "" } : SavedPerson))
  { version := cacheVersion
    timestamp := now
    cacheFormat := "enhanced"
    settings := s.settings
    displayPreferences := s.displayPreferences
    nodeStyle := s.nodeStyle
    camera := s.camera
    hiddenConnections := s.hiddenConnections
    lineOnlyConnections := s.lineOnlyConnections
    persons := personsWithRelationships
    personDataBackup := s.personData
    currentConnections := s.connections.map (fun conn =>
      ⟨conn.fromId, conn.toId, conn.type⟩)
    nextId := s.nextId }

/-- One element of the compressed `persons` array (`getPersonsArray`,
lines 1083-1099): `{id, x, y, color, radius, ...personData}`.  The spread of
a missing record (`|| {}`) contributes nothing, hence the `Option`. -/
structure CompressedPerson where
  id : String
  x : Int
  y : Int
  color : String
  radius : Int
  data : Option PersonData
deriving Repr, DecidableEq, Inhabited

/-- `getPersonsArray()` (lines 1083-1099). -/
def getPersonsArray (s : AppState) : List CompressedPerson :=
  s.nodes.map (fun p =>
    { id := p.1
      x := p.2.x
      y := p.2.y
      color := p.2.color
      radius := p.2.radius
      data := lookupA s.personData p.1 })

/-- The reduced snapshot of `getCompressedState()` (lines 1069-1081): no
settings, preferences or camera — only the relationship graph. -/
structure CompressedState where
  version : String
  timestamp : Nat
  cacheFormat : String
  persons : List CompressedPerson
  personData : List (String × PersonData)
  nextId : Nat
  hiddenConnections : List String
  lineOnlyConnections : List String
deriving Repr, DecidableEq, Inhabited

/-- `getCompressedState()` (lines 1069-1081). -/
def getCompressedState (s : AppState) (now : Nat) : CompressedState :=
  { version := cacheVersion
    timestamp := now
    cacheFormat := "compressed"
    persons := getPersonsArray s
    personData := s.personData
    nextId := s.nextId
    hiddenConnections := s.hiddenConnections
    lineOnlyConnections := s.lineOnlyConnections }

/-- A value stored in `localStorage` under some key: either the enhanced
full snapshot or the compressed one. -/
inductive StoredValue where
  | enhanced (st : SavedState)
  | compressed (st : CompressedState)
deriving Repr, DecidableEq, Inhabited

/-- `localStorage`, modelled as an insertion-ordered key-value list (JS
enumeration order of `localStorage` keys is implementation defined; the
theorems never depend on it). -/
def Storage := List (String × StoredValue)
deriving instance Repr, DecidableEq, Inhabited for Storage

/-- JS `parseInt` on the strings this code feeds it (no sign, no leading
whitespace): the longest leading digit run; `none` models `NaN`. -/
def jsParseIntLeading (s : String) : Option Nat :=
  let ds := s.toList.takeWhile Char.isDigit
  if ds.isEmpty then none
  else some (ds.foldl (fun n c => n * 10 + (c.toNat - 48)) 0)

/-- Stable insertion of one `(key, timestamp)` entry into a list sorted by
descending timestamp (the JS comparator `b.timestamp - a.timestamp`). -/
def insertByTsDesc (x : String × Nat) :
    List (String × Nat) → List (String × Nat)
  | [] => [x]
  | y :: t => if y.2 ≤ x.2 then x :: y :: t else y :: insertByTsDesc x t

/-- Stable sort by descending timestamp; agrees with any stable sort under
the same comparator, which is all ES2019 guarantees about `Array.sort`. -/
def sortByTsDesc (l : List (String × Nat)) : List (String × Nat) :=
  l.foldr insertByTsDesc []

/-- `cleanOldBackups()` (lines 1101-1122): collect keys starting with
`familyTreeCanvas_state_backup_`, parse the timestamp after the final
underscore, keep the three most recent, remove the rest.  A `NaN` timestamp
(malformed key) is mapped to 0; this only influences which backups are
retained, which no theorem observes. -/
def cleanOldBackups (storage : Storage) : Storage :=
  let backupKeys : List (String × Nat) :=
    (storage : List (String × StoredValue)).filterMap (fun e =>
      if e.1.startsWith (cacheKey ++ "_backup_") then
        some (e.1,
          (jsParseIntLeading (((splitOnChar '_' e.1).getLast?).getD "")).getD 0)
      else none)
  let sorted := sortByTsDesc backupKeys
  let toRemove := sorted.drop 3
  (storage : List (String × StoredValue)).filter (fun e =>
    !(toRemove.any (fun p => p.1 == e.1)))

/-- `saveToCache()` (lines 450-479).  `size` abstracts
`new Blob([JSON.stringify(state)]).size`, which lives outside the model;
the storage-exception path (quota errors from `setItem` itself) is likewise
external.  Returns the updated storage and the reported success flag. -/
def saveToCache (size : SavedState → Nat) (now : Nat) (s : AppState)
    (storage : Storage) : Storage × Bool :=
  let state := getCurrentState s now
  let currentSize := size state
  let storage1 :=
    if currentSize > 5 * 1024 * 1024 then
      setA storage cacheKey (StoredValue.compressed (getCompressedState s now))
    else
      setA storage cacheKey (StoredValue.enhanced state)
  let backupKey := cacheKey ++ "_backup_" ++ toString now
  let storage2 := setA storage1 backupKey (StoredValue.enhanced state)
  (cleanOldBackups storage2, true)

/-- A parsed snapshot as read back from storage.  Every field the loader
probes is optional: `JSON.parse` of an arbitrary cached string may lack any
of them.  `people` is the legacy field the loader sniffs for and rejects.
The legacy per-person aliases (`cx`, `father_name`, `birthName`, `nodeColor`,
`nodeSize`, `r`, `mother_id`, `father_id`, `spouse_id`) probed by
`processLoadedData` are absent from every snapshot this code writes and are
not modelled; their `||` fallbacks collapse accordingly. -/
structure LoadedData where
  version : Option String := none
  people : Option (List SavedPerson) := none
  persons : Option (List SavedPerson) := none
  settings : Option Settings := none
  displayPreferences : Option DisplayPrefs := none
  nodeStyle : Option String := none
  camera : Option Camera := none
  hiddenConnections : Option (List String) := none
  lineOnlyConnections : Option (List String) := none
  nextId : Option Nat := none
  personDataBackup : Option (List (String × PersonData)) := none
deriving Repr, DecidableEq, Inhabited

/-- JS truthiness of an optional string field: absent and empty are falsy. -/
def truthyS : Option String → Bool
  | none => false
  | some s => s ≠ ""

/-- JS `id.replace(p, empty)`: remove the first occurrence of the letter
p. -/
def removeFirstP (s : String) : String :=
  match splitOnChar 'p' s with
  | [] => s
  | [x] => x
  | x :: y :: rest => x ++ y ++ rest.foldl (fun acc seg => acc ++ "p" ++ seg) ""

/-- The body of the `for (const person of persons)` loop of
`processLoadedData` (lines 744-792), threading
(state, relationshipsFound, maxId). -/
def loadPerson (acc : AppState × Nat × Nat) (person : SavedPerson) :
    AppState × Nat × Nat :=
  let s := acc.1
  let nodeData : Node :=
    { x := jsOrI person.x 0
      y := jsOrI person.y 0
      name := jsOr person.name ""
      fatherName := jsOr person.fatherName ""
      surname := jsOr person.surname ""
      maidenName := jsOr person.maidenName ""
      dob := jsOr person.dob ""
      gender := jsOr person.gender ""
      color := jsOr person.color s.settings.defaultColor
      radius := jsOrI person.radius s.settings.nodeRadius }
  let s := { s with nodes := setA s.nodes person.id nodeData }
  let relationshipData : PersonData :=
    { name := jsOr person.name ""
      fatherName := jsOr person.fatherName ""
      surname := jsOr person.surname ""
      maidenName := jsOr person.maidenName ""
      dob := jsOr person.dob ""
      gender := jsOr person.gender ""
      motherId := jsOr person.motherId ""
      fatherId := jsOr person.fatherId ""
      spouseId := jsOr person.spouseId "" }
  let rf := acc.2.1 +
    (if relationshipData.motherId ≠ "" then 1 else 0) +
    (if relationshipData.fatherId ≠ "" then 1 else 0) +
    (if relationshipData.spouseId ≠ "" then 1 else 0)
  let s := { s with personData := setA s.personData person.id relationshipData }
  let maxId :=
    match jsParseIntLeading (removeFirstP person.id) with
    | some n => if n > acc.2.2 then n else acc.2.2
    | none => acc.2.2
  (s, rf, maxId)

/-- `processLoadedData(data)` (lines 626-842).  Returns the state after the
load and whether the payload was accepted (`false` is the early
`data.people && !data.persons` rejection).  The auto-center-on-bounds branch
of the camera restore is unreachable here because the node map was cleared
just above it, and the `saveToCache()` call at the end is a storage effect
outside this state model. -/
def processLoadedData (s : AppState) (data : LoadedData) : AppState × Bool :=
  if data.people.isSome ∧ data.persons.isNone then (s, false)
  else
    let s := { s with
      nodes := [], connections := [], personData := [],
      hiddenConnections := [], lineOnlyConnections := [] }
    let s :=
      match data.settings with
      | some st =>
        { s with settings :=
          { nodeRadius := jsOrI st.nodeRadius s.settings.nodeRadius
            defaultColor := jsOr st.defaultColor s.settings.defaultColor
            fontFamily := jsOr st.fontFamily s.settings.fontFamily
            fontSize := jsOrI st.fontSize s.settings.fontSize
            nameColor := jsOr st.nameColor s.settings.nameColor
            dateColor := jsOr st.dateColor s.settings.dateColor } }
      | none => s
    let s :=
      match data.displayPreferences with
      | some dp => { s with displayPreferences := dp }
      | none => s
    let s :=
      match data.nodeStyle with
      | some ns => if ns ≠ "" then { s with nodeStyle := ns } else s
      | none => s
    let s :=
      match data.camera with
      | some c => { s with camera := c }
      | none => s
    let s :=
      match data.hiddenConnections with
      | some l => { s with hiddenConnections := jsSetOf l }
      | none => s
    let s :=
      match data.lineOnlyConnections with
      | some l => { s with lineOnlyConnections := jsSetOf l }
      | none => s
    let s :=
      match data.nextId with
      | some n => if n ≠ 0 then { s with nextId := n } else s
      | none => s
    let persons := data.persons.getD []
    let r := persons.foldl loadPerson (s, 0, 0)
    let s := r.1
    let relationshipsFound := r.2.1
    let maxId := r.2.2
    let s := if maxId ≥ s.nextId then { s with nextId := maxId + 1 } else s
    let s := (cleanupInvalidRelationships s).1
    let s := regenerateConnections s
    let s :=
      if s.connections.length = 0 ∧ relationshipsFound > 0 then
        match data.personDataBackup with
        | some pdb =>
          regenerateConnections
            { s with personData := pdb.foldl (fun m e => setA m e.1 e.2) [] }
        | none => s
      else s
    let s := { s with undoStack := [], redoStack := [] }
    (pushUndoState s, true)

/-- `loadCachedState()` (lines 587-623).  `none` models the absence of the
primary key (and equally a parse failure, which the catch block folds into
the same `false` outcome).  Note the `state.people` branch: it only warns and
then falls through to the success notification and `return true`. -/
def loadCachedState (s : AppState) (item : Option LoadedData) :
    AppState × Bool :=
  match item with
  | none => (s, false)
  | some state =>
    if truthyS state.version ∨ state.persons.isSome then
      ((processLoadedData s state).1, true)
    else if state.people.isSome then
      (s, true)
    else
      (s, false)

/-- `JSON.parse(JSON.stringify(state))` for a snapshot this code wrote: the
round trip is lossless on these value types, so every field arrives
present. -/
def savedToLoaded (st : SavedState) : LoadedData :=
  { version := some st.version
    people := none
    persons := some st.persons
    settings := some st.settings
    displayPreferences := some st.displayPreferences
    nodeStyle := some st.nodeStyle
    camera := some st.camera
    hiddenConnections := some st.hiddenConnections
    lineOnlyConnections := some st.lineOnlyConnections
    nextId := some st.nextId
    personDataBackup := some st.personDataBackup }

namespace HeapModel

/-!
Reference-level model of the snapshot mechanism, capturing what the value
view above cannot: `pushUndoState` copies the `personData` *map* with
`new Map(this.personData || [])`, but the person record *objects* stay
shared between the live map and every snapshot.  All other snapshot parts
are copied value-wise at push time (`{...node}` per node, `new Set`,
`{...prefs}`), so person records are the only mutable objects a snapshot
shares with the live state; the model therefore tracks just the person
record heap, the live id → reference map, and the stacks. -/

/-- Person-record references: indices into an allocation-ordered heap. -/
structure HState where
  heap : List PersonData
  personData : List (String × Nat)
  undoStack : List (List (String × Nat))
  redoStack : List (List (String × Nat))
deriving Repr, DecidableEq, Inhabited

/-- Read a record through its reference. -/
def heapGet (h : List PersonData) (r : Nat) : PersonData :=
  h.getD r default

/-- `pushUndoState()` restricted to the person-record aspect:
`personData: new Map(this.personData || [])` copies the key → reference
entries but allocates nothing, then push / FIFO-cap / clear redo exactly as
in the value model. -/
def pushUndoState (s : HState) : HState :=
  let u1 := s.undoStack ++ [s.personData]
  { s with
    undoStack := if u1.length > maxUndoSize then u1.drop 1 else u1
    redoStack := [] }

/-- The in-place mutation performed by the spouse case of
`createConnection` (line 2213, `personAData.spouseId = personB` where
`personAData = this.personData.get(personA)`): a heap write through the
shared reference.  When the id is absent the source mutates a fresh `{}`
(`|| {}`) and `set`s it afterwards, which allocates. -/
def assignSpouseInPlace (s : HState) (personA personB : String) : HState :=
  match lookupA s.personData personA with
  | some r =>
    { s with heap := s.heap.set r { heapGet s.heap r with spouseId := personB } }
  | none =>
    let r := s.heap.length
    { s with
      heap := s.heap ++ [{ (default : PersonData) with spouseId := personB }]
      personData := setA s.personData personA r }

/-- Dereference a snapshot: the person records a snapshot on the undo stack
denotes right now, given the current heap. -/
def viewSnapshot (heap : List PersonData) (snap : List (String × Nat)) :
    List (String × PersonData) :=
  snap.map (fun p => (p.1, heapGet heap p.2))

end HeapModel

set_option maxRecDepth 8000

/-! ### Association-list and storage lemmas -/

theorem lookupA_setA_self {α : Type} (l : List (String × α)) (k : String)
    (v : α) : lookupA (setA l k v) k = some v := by
  induction l with
  | nil => simp [lookupA, setA, List.find?]
  | cons p t ih =>
    by_cases h : p.1 == k
    · simp [setA, h, lookupA, List.find?]
    · simp only [setA]
      rw [if_neg (by simpa using h)]
      simpa [lookupA, List.find?, h] using ih

theorem lookupA_setA_ne {α : Type} (l : List (String × α)) (k k2 : String)
    (v : α) (hne : k ≠ k2) : lookupA (setA l k2 v) k = lookupA l k := by
  induction l with
  | nil =>
    simp [lookupA, setA, List.find?, show (k2 == k) = false by
      simpa using fun h => hne h.symm]
  | cons p t ih =>
    by_cases h : p.1 == k2
    · have hpk : (p.1 == k) = false := by
        have : p.1 = k2 := by simpa using h
        simpa [this] using fun hh => hne hh.symm
      simp [setA, h, lookupA, List.find?, hpk,
        show (k2 == k) = false by simpa using fun hh => hne hh.symm]
    · simp only [setA]
      rw [if_neg (by simpa using h)]
      by_cases hpk : p.1 == k
      · simp [lookupA, List.find?, hpk]
      · simpa [lookupA, List.find?, hpk] using ih

theorem lookupA_filter {α : Type} (l : List (String × α)) (k : String)
    (f : String × α → Bool) (hf : ∀ v, f (k, v) = true) :
    lookupA (l.filter f) k = lookupA l k := by
  induction l with
  | nil => simp [lookupA]
  | cons p t ih =>
    by_cases hpk : p.1 = k
    · have : f p = true := by
        have := hf p.2
        simpa [← hpk] using this
      simp [List.filter, this, lookupA, List.find?, hpk]
    · by_cases hfp : f p = true
      · simpa [List.filter, hfp, lookupA, List.find?,
          show (p.1 == k) = false by simpa using hpk] using ih
      · simp only [List.filter, Bool.not_eq_true] at hfp ⊢
        rw [hfp]
        simpa [lookupA, List.find?,
          show (p.1 == k) = false by simpa using hpk] using ih

theorem mem_insertByTsDesc {x y : String × Nat} {l : List (String × Nat)}
    (h : x ∈ insertByTsDesc y l) : x = y ∨ x ∈ l := by
  induction l with
  | nil => simpa [insertByTsDesc] using h
  | cons z t ih =>
    by_cases hz : z.2 ≤ y.2
    · simpa [insertByTsDesc, hz] using h
    · simp only [insertByTsDesc, if_neg hz, List.mem_cons] at h
      rcases h with h | h
      · exact Or.inr (by simp [h])
      · rcases ih h with h | h
        · exact Or.inl h
        · exact Or.inr (List.mem_cons_of_mem _ h)

theorem mem_sortByTsDesc {x : String × Nat} {l : List (String × Nat)}
    (h : x ∈ sortByTsDesc l) : x ∈ l := by
  induction l with
  | nil => simp [sortByTsDesc] at h
  | cons z t ih =>
    simp only [sortByTsDesc, List.foldr] at h
    rcases mem_insertByTsDesc h with h | h
    · simp [h]
    · exact List.mem_cons_of_mem _ (ih h)

/-- `cleanOldBackups` never touches the primary key. -/
theorem lookupA_cleanOldBackups (storage : Storage) :
    lookupA (cleanOldBackups storage) cacheKey = lookupA storage cacheKey := by
  unfold cleanOldBackups
  apply lookupA_filter
  intro v
  simp only [Bool.not_eq_true', List.any_eq_false]
  intro p hp
  have hmem : p ∈ sortByTsDesc ((storage : List (String × StoredValue)).filterMap
      (fun e => if e.1.startsWith (cacheKey ++ "_backup_") then
        some (e.1,
          (jsParseIntLeading (((splitOnChar '_' e.1).getLast?).getD "")).getD 0)
      else none)) := List.drop_subset 3 _ hp
  have hmem2 := mem_sortByTsDesc hmem
  rcases List.mem_filterMap.mp hmem2 with ⟨e, _, he⟩
  by_cases hs : e.1.startsWith (cacheKey ++ "_backup_") = true
  · rw [if_pos hs] at he
    injection he with he2
    have hp1 : p.1 = e.1 := by rw [← he2]
    have hps : p.1.startsWith (cacheKey ++ "_backup_") = true := by
      rw [hp1]; exact hs
    have hnot : cacheKey.startsWith (cacheKey ++ "_backup_") = false := by decide
    intro hk
    have hk2 : p.1 = cacheKey := by simpa using hk
    rw [hk2] at hps
    rw [hps] at hnot
    cases hnot
  · rw [if_neg hs] at he
    cases he

theorem backupKey_ne_cacheKey (now : Nat) :
    cacheKey ≠ cacheKey ++ "_backup_" ++ toString now := by
  intro h
  have hlen := congrArg String.length h
  have h8 : "_backup_".length = 8 := rfl
  simp only [String.length_append, h8] at hlen
  omega

/-- C10: whenever the serialized full snapshot exceeds the 5 MB threshold,
`saveToCache` still succeeds: it writes the compressed snapshot to the
primary storage key, and that snapshot retains the person array (ids and
positions), the relational store, both suppression sets and the `nextId`
counter, while carrying no settings, preferences or camera. -/
theorem saveToCache_compressed_fallback
    (size : SavedState → Nat) (now : Nat) (s : AppState) (storage : Storage)
    (hbig : size (getCurrentState s now) > 5 * 1024 * 1024) :
    (saveToCache size now s storage).2 = true ∧
    lookupA (saveToCache size now s storage).1 cacheKey
      = some (StoredValue.compressed (getCompressedState s now)) ∧
    (getCompressedState s now).persons = getPersonsArray s ∧
    (getCompressedState s now).personData = s.personData ∧
    (getCompressedState s now).hiddenConnections = s.hiddenConnections ∧
    (getCompressedState s now).lineOnlyConnections = s.lineOnlyConnections ∧
    (getCompressedState s now).nextId = s.nextId := by
  refine ⟨rfl, ?_, rfl, rfl, rfl, rfl, rfl⟩
  show lookupA (cleanOldBackups (setA
      (if size (getCurrentState s now) > 5 * 1024 * 1024 then
        setA storage cacheKey
          (StoredValue.compressed (getCompressedState s now))
      else
        setA storage cacheKey (StoredValue.enhanced (getCurrentState s now)))
      (cacheKey ++ "_backup_" ++ toString now)
      (StoredValue.enhanced (getCurrentState s now)))) cacheKey = _
  rw [if_pos hbig, lookupA_cleanOldBackups,
    lookupA_setA_ne _ _ _ _ (backupKey_ne_cacheKey now),
    lookupA_setA_self]

/-- Witness for `saveToCache_compressed_fallback` at a concrete oversized
serialization. -/
theorem saveToCache_compressed_fallback_witness :
    ((fun (_ : SavedState) => 5 * 1024 * 1024 + 1)
        (getCurrentState {} 0) > 5 * 1024 * 1024) ∧
    ((saveToCache (fun _ => 5 * 1024 * 1024 + 1) 0 {} []).2 = true ∧
     lookupA (saveToCache (fun _ => 5 * 1024 * 1024 + 1) 0 {} []).1 cacheKey
       = some (StoredValue.compressed (getCompressedState {} 0)) ∧
     (getCompressedState {} 0).persons = getPersonsArray {} ∧
     (getCompressedState {} 0).personData = AppState.personData {} ∧
     (getCompressedState {} 0).hiddenConnections
       = AppState.hiddenConnections {} ∧
     (getCompressedState {} 0).lineOnlyConnections
       = AppState.lineOnlyConnections {} ∧
     (getCompressedState {} 0).nextId = AppState.nextId {}) :=
  ⟨by decide,
   saveToCache_compressed_fallback (fun _ => 5 * 1024 * 1024 + 1) 0 {} []
     (by decide)⟩

/-! ### Structure of the derived edge set -/

theorem not_lt_empty (A : String) : ¬ A < "" := by
  intro h
  have h2 : A.data < [] := String.lt_iff_toList_lt.mp h
  generalize A.data = l at h2
  cases h2

theorem getConnectionKey_comm (A B : String) :
    getConnectionKey A B = getConnectionKey B A := by
  unfold getConnectionKey
  rcases lt_trichotomy A B with h | h | h
  · rw [if_pos h, if_neg (lt_asymm h)]
  · subst h; rfl
  · rw [if_neg (lt_asymm h), if_pos h]

theorem mem_motherConns {hidden : List String} {nodes : List (String × Node)}
    {cid : String} {d : PersonData} {e : Conn}
    (he : e ∈ motherConns hidden nodes cid d) :
    e = ⟨cid, d.motherId, "parent"⟩ ∧
    hidden.contains (getConnectionKey cid d.motherId) = false := by
  simp [motherConns] at he
  obtain ⟨h1, h2, h3, h4⟩ := he
  exact ⟨h4, by simpa using h2⟩

theorem mem_fatherConns {hidden : List String} {nodes : List (String × Node)}
    {cid : String} {d : PersonData} {e : Conn}
    (he : e ∈ fatherConns hidden nodes cid d) :
    e = ⟨cid, d.fatherId, "parent"⟩ ∧
    hidden.contains (getConnectionKey cid d.fatherId) = false := by
  simp [fatherConns] at he
  obtain ⟨h1, h2, h3, h4⟩ := he
  exact ⟨h4, by simpa using h2⟩

theorem mem_spouseConns {hidden : List String} {nodes : List (String × Node)}
    {cid : String} {d : PersonData} {e : Conn}
    (he : e ∈ spouseConns hidden nodes cid d) :
    e = ⟨cid, d.spouseId, "spouse"⟩ ∧
    hidden.contains (getConnectionKey cid d.spouseId) = false ∧
    cid < d.spouseId := by
  simp [spouseConns] at he
  obtain ⟨⟨h1a, h1b, h1c⟩, h2, h3, h4⟩ := he
  exact ⟨h4, by simpa using h2, String.lt_iff_toList_lt.mpr h1c⟩

theorem mem_regenStep {hidden : List String} {nodes : List (String × Node)}
    {cid : String} {d : PersonData} {e : Conn}
    (he : e ∈ (regenStep hidden nodes cid d).1) :
    e.fromId = cid ∧ (e.type = "parent" ∨ e.type = "spouse") ∧
    hidden.contains (getConnectionKey e.fromId e.toId) = false ∧
    (e.type = "spouse" → e.fromId < e.toId) := by
  have he2 : e ∈ motherConns hidden nodes cid d ++
      fatherConns hidden nodes cid d ++ spouseConns hidden nodes cid d := he
  rcases List.mem_append.mp he2 with hm | hs
  · rcases List.mem_append.mp hm with hm | hf
    · obtain ⟨heq, hhid⟩ := mem_motherConns hm
      subst heq
      refine ⟨rfl, Or.inl rfl, hhid, ?_⟩
      intro habs
      simp at habs
    · obtain ⟨heq, hhid⟩ := mem_fatherConns hf
      subst heq
      refine ⟨rfl, Or.inl rfl, hhid, ?_⟩
      intro habs
      simp at habs
  · obtain ⟨heq, hhid, hlt⟩ := mem_spouseConns hs
    subst heq
    exact ⟨rfl, Or.inr rfl, hhid, fun _ => hlt⟩

theorem mem_regenPersons {hidden : List String} {nodes : List (String × Node)} :
    ∀ (pd : List (String × PersonData)) (e : Conn),
    e ∈ (regenPersons hidden nodes pd).1 →
    (e.type = "parent" ∨ e.type = "spouse") ∧
    hidden.contains (getConnectionKey e.fromId e.toId) = false ∧
    (e.type = "spouse" → e.fromId < e.toId)
  | [], e, he => by simp [regenPersons] at he
  | (cid, d) :: rest, e, he => by
    simp only [regenPersons] at he
    rcases List.mem_append.mp he with h | h
    · obtain ⟨_, h2, h3, h4⟩ := mem_regenStep h
      exact ⟨h2, h3, h4⟩
    · exact mem_regenPersons rest e h

theorem mem_lineOnlyStep {hidden : List String} {nodes : List (String × Node)}
    {k : String} {e : Conn} (he : e ∈ lineOnlyStep hidden nodes k) :
    e.type = "line-only" := by
  unfold lineOnlyStep at he
  split at he
  · split at he
    · split at he
      · simp at he
        rw [he]
      · simp at he
    · simp at he
  · simp at he

theorem mem_lineOnlyLoop {hidden : List String} {nodes : List (String × Node)} :
    ∀ (l : List String) (e : Conn), e ∈ lineOnlyLoop hidden nodes l →
    e.type = "line-only"
  | [], e, he => by simp [lineOnlyLoop] at he
  | k :: rest, e, he => by
    simp only [lineOnlyLoop] at he
    rcases List.mem_append.mp he with h | h
    · exact mem_lineOnlyStep h
    · exact mem_lineOnlyLoop rest e h

theorem regenPersons_store (hidden : List String) (nodes : List (String × Node)) :
    ∀ (pd : List (String × PersonData)),
    (∀ p ∈ pd, p.2.spouseId ≠ p.1) →
    (regenPersons hidden nodes pd).2 = pd
  | [], _ => rfl
  | (cid, d) :: rest, hns => by
    have hhd : d.spouseId ≠ cid := hns (cid, d) (List.mem_cons_self _ _)
    have hrest := regenPersons_store hidden nodes rest
      (fun p hp => hns p (List.mem_cons_of_mem _ hp))
    simp only [regenPersons, regenStep, if_neg hhd, hrest]

/-! ### Concrete fixtures used by witnesses and counterexamples -/

/-- A small concrete node. -/
def mkTestNode (x y : Int) (nm : String) : Node :=
  { x := x, y := y, name := nm, gender := "f", color := "#111111", radius := 50 }

/-- The fixed 5-person tree of the round-trip property: one mutual spouse
pair (p2, p3) and one parent-child edge (p4 has mother p1). -/
def ex5 : AppState :=
  { personData :=
      [("p1", { name := "A", gender := "f" }),
       ("p2", { name := "B", gender := "m", spouseId := "p3" }),
       ("p3", { name := "C", gender := "f", spouseId := "p2" }),
       ("p4", { name := "D", gender := "m", motherId := "p1" }),
       ("p5", { name := "E", gender := "f" })]
    nodes :=
      [("p1", mkTestNode 10 20 "A"), ("p2", mkTestNode 30 40 "B"),
       ("p3", mkTestNode 50 60 "C"), ("p4", mkTestNode 70 80 "D"),
       ("p5", mkTestNode 90 100 "E")]
    connections := []
    nextId := 6 }

/-- Hidden canonical pair-key a-b, but the purely visual line-only key is
stored in the reversed orientation b-a. -/
def exC4 : AppState :=
  { personData := [("a", { name := "A" }), ("b", { name := "B" })]
    nodes := [("a", mkTestNode 1 1 "A"), ("b", mkTestNode 2 2 "B")]
    hiddenConnections := ["a-b"]
    lineOnlyConnections := ["b-a"] }

/-- A store whose only record is a self-spouse. -/
def exC5 : AppState :=
  { personData := [("p1", { name := "A", spouseId := "p1" })] }

/-- An empty store with two nodes and one line-only key. -/
def exC9 : AppState :=
  { nodes := [("a", mkTestNode 1 1 "A"), ("b", mkTestNode 2 2 "B")]
    lineOnlyConnections := ["a-b"] }

/-- A store containing a record keyed by the empty string. -/
def exC6 : AppState := { personData := [("", {})] }

/-- C5 (amended): connection derivation replaces only the edge list — the
store, both suppression sets, the nodes and all remaining state are left
unchanged — provided no record carries a self-spouse; the in-loop
self-spouse cleanup (lines 923-928) is the one store mutation the source
performs during derivation. -/
theorem regenerateConnections_pure_amended (s : AppState)
    (hns : ∀ p ∈ s.personData, p.2.spouseId ≠ p.1) :
    (regenerateConnections s).personData = s.personData ∧
    (regenerateConnections s).hiddenConnections = s.hiddenConnections ∧
    (regenerateConnections s).lineOnlyConnections = s.lineOnlyConnections ∧
    (regenerateConnections s).nodes = s.nodes ∧
    (regenerateConnections s).camera = s.camera ∧
    (regenerateConnections s).settings = s.settings ∧
    (regenerateConnections s).nextId = s.nextId ∧
    (regenerateConnections s).undoStack = s.undoStack ∧
    (regenerateConnections s).redoStack = s.redoStack := by
  unfold regenerateConnections
  by_cases hemp : s.personData.isEmpty
  · rw [if_pos hemp]
    exact ⟨rfl, rfl, rfl, rfl, rfl, rfl, rfl, rfl, rfl⟩
  · rw [if_neg hemp]
    refine ⟨?_, rfl, rfl, rfl, rfl, rfl, rfl, rfl, rfl⟩
    exact regenPersons_store _ _ _ hns

/-- C5 counterexample: on a store containing a self-spouse record,
`regenerateConnections` mutates the relationship store, so derivation is not
a pure recomputation of the edge set. -/
theorem regenerateConnections_mutates_store_cex :
    (regenerateConnections exC5).personData ≠ exC5.personData := by decide

/-- Witness for `regenerateConnections_pure_amended` on the concrete
5-person tree. -/
theorem regenerateConnections_pure_amended_witness :
    (∀ p ∈ ex5.personData, p.2.spouseId ≠ p.1) ∧
    ((regenerateConnections ex5).personData = ex5.personData ∧
     (regenerateConnections ex5).hiddenConnections = ex5.hiddenConnections ∧
     (regenerateConnections ex5).lineOnlyConnections
       = ex5.lineOnlyConnections ∧
     (regenerateConnections ex5).nodes = ex5.nodes ∧
     (regenerateConnections ex5).camera = ex5.camera ∧
     (regenerateConnections ex5).settings = ex5.settings ∧
     (regenerateConnections ex5).nextId = ex5.nextId ∧
     (regenerateConnections ex5).undoStack = ex5.undoStack ∧
     (regenerateConnections ex5).redoStack = ex5.redoStack) :=
  ⟨by decide, regenerateConnections_pure_amended ex5 (by decide)⟩

/-- C4 (amended): when the canonical pair-key of (A, B) is in
`hiddenConnections`, derivation emits no parent and no spouse edge between A
and B — every surviving edge between them can only be a line-only edge,
whose suppression check compares the stored key verbatim, so a line-only key
stored in a non-canonical orientation is not suppressed. -/
theorem hiddenPair_no_store_edges (s : AppState) (A B : String)
    (hhid : s.hiddenConnections.contains (getConnectionKey A B) = true) :
    ∀ e ∈ (regenerateConnections s).connections,
      ((e.fromId = A ∧ e.toId = B) ∨ (e.fromId = B ∧ e.toId = A)) →
      e.type = "line-only" := by
  intro e hmem hend
  unfold regenerateConnections at hmem
  by_cases hemp : s.personData.isEmpty
  · rw [if_pos hemp] at hmem
    simp at hmem
  · rw [if_neg hemp] at hmem
    have hmem2 : e ∈ (regenPersons s.hiddenConnections s.nodes
        s.personData).1 ++ lineOnlyLoop s.hiddenConnections s.nodes
        s.lineOnlyConnections := hmem
    rcases List.mem_append.mp hmem2 with hp | hl
    · obtain ⟨_, hfalse, _⟩ := mem_regenPersons _ _ hp
      have hkey : getConnectionKey e.fromId e.toId = getConnectionKey A B := by
        rcases hend with ⟨h1, h2⟩ | ⟨h1, h2⟩
        · rw [h1, h2]
        · rw [h1, h2, getConnectionKey_comm]
      rw [hkey, hhid] at hfalse
      cases hfalse
    · exact mem_lineOnlyLoop _ _ hl

/-- C4 counterexample: the canonical pair-key `a-b` is hidden, yet
derivation still emits an edge between a and b, because the line-only key
was stored as `b-a` and the suppression check compares stored keys
verbatim. -/
theorem hiddenPair_cex :
    exC4.hiddenConnections.contains (getConnectionKey "a" "b") = true ∧
    (regenerateConnections exC4).connections
      = [⟨"b", "a", "line-only"⟩] := by decide

/-- Witness for `hiddenPair_no_store_edges` at a concrete suppressed pair. -/
theorem hiddenPair_no_store_edges_witness :
    (exC4.hiddenConnections.contains (getConnectionKey "a" "b") = true) ∧
    (∀ e ∈ (regenerateConnections exC4).connections,
      ((e.fromId = "a" ∧ e.toId = "b") ∨ (e.fromId = "b" ∧ e.toId = "a")) →
      e.type = "line-only") :=
  ⟨by decide, hiddenPair_no_store_edges exC4 "a" "b" (by decide)⟩

/-! ### Line-only edge counting (C9) -/

/-- The line-only edge between two given ids, as a Boolean predicate. -/
def isLineOnlyEdge (id1 id2 : String) (e : Conn) : Bool :=
  e.type == "line-only" && (e.fromId == id1 && e.toId == id2)

/-- A stored line-only key whose first two split parts are the given ids —
exactly the keys from which the loop would emit the (id1, id2) edge. -/
def firstTwoMatch (id1 id2 : String) (k : String) : Bool :=
  match splitOnChar '-' k with
  | a :: b :: _ => a == id1 && b == id2
  | _ => false

theorem countP_lineOnlyStep_nomatch {hidden : List String}
    {nodes : List (String × Node)} {id1 id2 k : String}
    (hm : firstTwoMatch id1 id2 k = false) :
    (lineOnlyStep hidden nodes k).countP (isLineOnlyEdge id1 id2) = 0 := by
  unfold lineOnlyStep
  by_cases hc : hidden.contains k = true
  · rw [if_neg (by simpa using hc)]
    rfl
  · rw [if_pos hc]
    unfold firstTwoMatch at hm
    cases hsp : splitOnChar '-' k with
    | nil => simp
    | cons a t =>
      cases t with
      | nil => simp
      | cons b t2 =>
        rw [hsp] at hm
        by_cases hn : containsKey nodes a ∧ containsKey nodes b
        · simp only [List.countP_cons, List.countP_nil, if_pos hn]
          simp only [isLineOnlyEdge]
          simp at hm ⊢
          simpa using hm
        · simp [hn]

theorem countP_lineOnlyStep_match {hidden : List String}
    {nodes : List (String × Node)} {id1 id2 k : String}
    (hsp : splitOnChar '-' k = [id1, id2])
    (hc : hidden.contains k = false)
    (h1 : containsKey nodes id1 = true) (h2 : containsKey nodes id2 = true) :
    (lineOnlyStep hidden nodes k).countP (isLineOnlyEdge id1 id2) = 1 := by
  unfold lineOnlyStep
  rw [if_pos (by simpa using hc)]
  rw [hsp]
  simp [h1, h2, isLineOnlyEdge, List.countP_cons]

theorem firstTwoMatch_self {id1 id2 k : String}
    (hsp : splitOnChar '-' k = [id1, id2]) :
    firstTwoMatch id1 id2 k = true := by
  unfold firstTwoMatch
  rw [hsp]
  simp

theorem countP_lineOnlyLoop_zero {hidden : List String}
    {nodes : List (String × Node)} {id1 id2 : String} :
    ∀ l : List String, l.countP (firstTwoMatch id1 id2) = 0 →
    (lineOnlyLoop hidden nodes l).countP (isLineOnlyEdge id1 id2) = 0
  | [], _ => rfl
  | k :: rest, h => by
    rw [List.countP_cons] at h
    have hk : firstTwoMatch id1 id2 k = false := by
      by_cases hb : firstTwoMatch id1 id2 k = true
      · rw [hb] at h; simp at h
      · simpa using hb
    have hrest : rest.countP (firstTwoMatch id1 id2) = 0 := by
      rw [hk] at h; simpa using h
    simp only [lineOnlyLoop, List.countP_append]
    rw [countP_lineOnlyStep_nomatch hk, countP_lineOnlyLoop_zero rest hrest]

theorem countP_lineOnlyLoop_one {hidden : List String}
    {nodes : List (String × Node)} {id1 id2 k : String} :
    ∀ l : List String, k ∈ l →
    l.countP (firstTwoMatch id1 id2) = 1 →
    splitOnChar '-' k = [id1, id2] →
    hidden.contains k = false →
    containsKey nodes id1 = true → containsKey nodes id2 = true →
    (lineOnlyLoop hidden nodes l).countP (isLineOnlyEdge id1 id2) = 1
  | [], hk, _, _, _, _, _ => by cases hk
  | k1 :: rest, hk, hcount, hsp, hc, h1, h2 => by
    rw [List.countP_cons] at hcount
    simp only [lineOnlyLoop, List.countP_append]
    by_cases heq : k1 = k
    · subst heq
      rw [firstTwoMatch_self hsp] at hcount
      simp at hcount
      rw [countP_lineOnlyStep_match hsp hc h1 h2,
        countP_lineOnlyLoop_zero rest
          (List.countP_eq_zero.mpr (fun a ha => by simp [hcount a ha]))]
    · have hkrest : k ∈ rest := by
        rcases List.mem_cons.mp hk with h | h
        · exact absurd h.symm heq
        · exact h
      have hk1 : firstTwoMatch id1 id2 k1 = false := by
        by_cases hb : firstTwoMatch id1 id2 k1 = true
        · rw [hb] at hcount
          simp at hcount
          have := hcount k hkrest
          rw [firstTwoMatch_self hsp] at this
          cases this
        · simpa using hb
      have hrest : rest.countP (firstTwoMatch id1 id2) = 1 := by
        rw [hk1] at hcount; simpa using hcount
      rw [countP_lineOnlyStep_nomatch hk1,
        countP_lineOnlyLoop_one rest hkrest hrest hsp hc h1 h2]

/-- C9 (amended): provided the relationship store is non-empty (with an
empty store the deriver returns right after clearing and emits nothing),
every pair-key of `lineOnlyConnections` that is not hidden, splits into two
node ids, and is the only stored key splitting into that pair, yields
exactly one line-only edge — independently of the records and relational
fields the store contains. -/
theorem lineOnly_key_one_edge (s : AppState) (key id1 id2 : String)
    (hpd : s.personData ≠ [])
    (hk : key ∈ s.lineOnlyConnections)
    (hcount : s.lineOnlyConnections.countP (firstTwoMatch id1 id2) = 1)
    (hhid : s.hiddenConnections.contains key = false)
    (hsp : splitOnChar '-' key = [id1, id2])
    (h1 : containsKey s.nodes id1 = true)
    (h2 : containsKey s.nodes id2 = true) :
    (regenerateConnections s).connections.countP (isLineOnlyEdge id1 id2)
      = 1 := by
  unfold regenerateConnections
  rw [if_neg (by simpa using hpd)]
  show ((regenPersons s.hiddenConnections s.nodes s.personData).1 ++
    lineOnlyLoop s.hiddenConnections s.nodes
      s.lineOnlyConnections).countP (isLineOnlyEdge id1 id2) = 1
  rw [List.countP_append]
  have hzero : (regenPersons s.hiddenConnections s.nodes
      s.personData).1.countP (isLineOnlyEdge id1 id2) = 0 := by
    apply List.countP_eq_zero.mpr
    intro e he
    obtain ⟨ht, _, _⟩ := mem_regenPersons _ _ he
    rcases ht with h | h <;> simp [isLineOnlyEdge, h]
  rw [hzero,
    countP_lineOnlyLoop_one s.lineOnlyConnections hk hcount hsp hhid h1 h2]

/-- C9 counterexample: with an empty relationship store the deriver returns
early and emits no edges at all, so a qualifying line-only key (both nodes
present, not hidden) yields no edge — line-only derivation is not
independent of the store. -/
theorem lineOnly_empty_store_cex :
    exC9.lineOnlyConnections = ["a-b"] ∧
    exC9.hiddenConnections.contains "a-b" = false ∧
    containsKey exC9.nodes "a" = true ∧
    containsKey exC9.nodes "b" = true ∧
    (regenerateConnections exC9).connections = [] := by decide

/-- Witness for `lineOnly_key_one_edge` at a concrete non-empty store. -/
theorem lineOnly_key_one_edge_witness :
    (exC4.personData ≠ [] ∧
     "b-a" ∈ exC4.lineOnlyConnections ∧
     exC4.lineOnlyConnections.countP (firstTwoMatch "b" "a") = 1 ∧
     exC4.hiddenConnections.contains "b-a" = false ∧
     splitOnChar '-' "b-a" = ["b", "a"] ∧
     containsKey exC4.nodes "b" = true ∧
     containsKey exC4.nodes "a" = true) ∧
    (regenerateConnections exC4).connections.countP (isLineOnlyEdge "b" "a")
      = 1 :=
  ⟨by decide,
   lineOnly_key_one_edge exC4 "b-a" "b" "a" (by decide) (by decide)
     (by decide) (by decide) (by decide) (by decide) (by decide)⟩

/-! ### Spouse edge counting (C1) -/

/-- A spouse edge between two given ids, in either orientation. -/
def isSpouseBetween (A B : String) (e : Conn) : Bool :=
  e.type == "spouse" &&
    ((e.fromId == A && e.toId == B) || (e.fromId == B && e.toId == A))

theorem isSpouseBetween_comm (A B : String) (e : Conn) :
    isSpouseBetween A B e = isSpouseBetween B A e := by
  unfold isSpouseBetween
  rw [Bool.or_comm]

theorem countP_motherConns_spouse {hidden : List String}
    {nodes : List (String × Node)} {cid : String} {d : PersonData}
    {A B : String} :
    (motherConns hidden nodes cid d).countP (isSpouseBetween A B) = 0 := by
  unfold motherConns
  split_ifs <;> simp [isSpouseBetween, List.countP_cons]

theorem countP_fatherConns_spouse {hidden : List String}
    {nodes : List (String × Node)} {cid : String} {d : PersonData}
    {A B : String} :
    (fatherConns hidden nodes cid d).countP (isSpouseBetween A B) = 0 := by
  unfold fatherConns
  split_ifs <;> simp [isSpouseBetween, List.countP_cons]

theorem countP_spouseConns_other {hidden : List String}
    {nodes : List (String × Node)} {cid : String} {d : PersonData}
    {A B : String} (hA : cid ≠ A) (hB : cid ≠ B) :
    (spouseConns hidden nodes cid d).countP (isSpouseBetween A B) = 0 := by
  unfold spouseConns
  split_ifs <;> simp [isSpouseBetween, List.countP_cons, hA, hB]

theorem countP_spouseConns_partner {hidden : List String}
    {nodes : List (String × Node)} {A B : String} {d : PersonData}
    (hd : d.spouseId = B) (hne : A ≠ B)
    (hhid : hidden.contains (getConnectionKey A B) = false)
    (h1 : containsKey nodes A = true) (h2 : containsKey nodes B = true) :
    (spouseConns hidden nodes A d).countP (isSpouseBetween A B)
      = if A < B then 1 else 0 := by
  unfold spouseConns
  rw [hd]
  by_cases hlt : A < B
  · have hBne : B ≠ "" := by
      intro hB0
      rw [hB0] at hlt
      exact not_lt_empty A hlt
    rw [if_pos ⟨hBne, Ne.symm hne, hlt⟩, if_pos (by simpa using hhid),
      if_pos ⟨h1, h2⟩, if_pos hlt]
    simp [isSpouseBetween, List.countP_cons]
  · rw [if_neg (fun hcon => hlt hcon.2.2), if_neg hlt]
    rfl

theorem countP_regenStep_other {hidden : List String}
    {nodes : List (String × Node)} {cid : String} {d : PersonData}
    {A B : String} (hA : cid ≠ A) (hB : cid ≠ B) :
    ((regenStep hidden nodes cid d).1).countP (isSpouseBetween A B) = 0 := by
  show ((motherConns hidden nodes cid d ++ fatherConns hidden nodes cid d ++
    spouseConns hidden nodes cid d).countP (isSpouseBetween A B)) = 0
  rw [List.countP_append, List.countP_append, countP_motherConns_spouse,
    countP_fatherConns_spouse, countP_spouseConns_other hA hB]

theorem countP_regenStep_partner {hidden : List String}
    {nodes : List (String × Node)} {A B : String} {d : PersonData}
    (hd : d.spouseId = B) (hne : A ≠ B)
    (hhid : hidden.contains (getConnectionKey A B) = false)
    (h1 : containsKey nodes A = true) (h2 : containsKey nodes B = true) :
    ((regenStep hidden nodes A d).1).countP (isSpouseBetween A B)
      = if A < B then 1 else 0 := by
  show ((motherConns hidden nodes A d ++ fatherConns hidden nodes A d ++
    spouseConns hidden nodes A d).countP (isSpouseBetween A B)) = _
  rw [List.countP_append, List.countP_append, countP_motherConns_spouse,
    countP_fatherConns_spouse, countP_spouseConns_partner hd hne hhid h1 h2]
  omega

theorem countP_regenPersons_zero {hidden : List String}
    {nodes : List (String × Node)} {A B : String} :
    ∀ pd : List (String × PersonData),
    (∀ p ∈ pd, p.1 ≠ A ∧ p.1 ≠ B) →
    ((regenPersons hidden nodes pd).1).countP (isSpouseBetween A B) = 0
  | [], _ => rfl
  | (cid, d) :: rest, h => by
    simp only [regenPersons, List.countP_append]
    have hhd := h (cid, d) (List.mem_cons_self _ _)
    rw [countP_regenStep_other hhd.1 hhd.2,
      countP_regenPersons_zero rest (fun p hp => h p (List.mem_cons_of_mem _ hp))]

theorem countP_regenPersons_oneSide {hidden : List String}
    {nodes : List (String × Node)} {A B : String} {db : PersonData}
    (hsB : db.spouseId = A) (hne : A ≠ B)
    (hhid : hidden.contains (getConnectionKey A B) = false)
    (hnA : containsKey nodes A = true) (hnB : containsKey nodes B = true) :
    ∀ pd : List (String × PersonData), (B, db) ∈ pd →
    (pd.map Prod.fst).Nodup →
    (∀ p ∈ pd, p.1 ≠ A) →
    ((regenPersons hidden nodes pd).1).countP (isSpouseBetween A B)
      = if B < A then 1 else 0
  | [], hmem, _, _ => by cases hmem
  | (cid, d) :: rest, hmem, hnd, hnoA => by
    simp only [List.map_cons, List.nodup_cons] at hnd
    simp only [regenPersons, List.countP_append]
    by_cases hc : cid = B
    · have hd : d = db := by
        rcases List.mem_cons.mp hmem with h | h
        · exact (congrArg Prod.snd h).symm
        · exact absurd (List.mem_map_of_mem Prod.fst h) (hc ▸ hnd.1)
      rw [hc, hd]
      have hstep : ((regenStep hidden nodes B db).1).countP
          (isSpouseBetween B A) = if B < A then 1 else 0 :=
        countP_regenStep_partner hsB (Ne.symm hne)
          (by rw [getConnectionKey_comm]; exact hhid) hnB hnA
      have hstep2 : ((regenStep hidden nodes B db).1).countP
          (isSpouseBetween A B) = if B < A then 1 else 0 := by
        rw [← hstep]
        exact List.countP_congr (fun e _ => by rw [isSpouseBetween_comm A B e])
      have hz : ((regenPersons hidden nodes rest).1).countP
          (isSpouseBetween A B) = 0 :=
        countP_regenPersons_zero rest (fun p hp =>
          ⟨hnoA p (List.mem_cons_of_mem _ hp),
           fun hb => (hc ▸ hnd.1) (hb ▸ List.mem_map_of_mem Prod.fst hp)⟩)
      rw [hstep2, hz]
      omega
    · have hcA : cid ≠ A := hnoA (cid, d) (List.mem_cons_self _ _)
      have hmem2 : (B, db) ∈ rest := by
        rcases List.mem_cons.mp hmem with h | h
        · exact absurd (congrArg Prod.fst h).symm hc
        · exact h
      rw [countP_regenStep_other hcA hc,
        countP_regenPersons_oneSide hsB hne hhid hnA hnB rest hmem2 hnd.2
          (fun p hp => hnoA p (List.mem_cons_of_mem _ hp))]
      omega

theorem countP_regenPersons_pair {hidden : List String}
    {nodes : List (String × Node)} {A B : String} {da db : PersonData}
    (hsA : da.spouseId = B) (hsB : db.spouseId = A) (hne : A ≠ B)
    (hhid : hidden.contains (getConnectionKey A B) = false)
    (hnA : containsKey nodes A = true) (hnB : containsKey nodes B = true) :
    ∀ pd : List (String × PersonData), (A, da) ∈ pd → (B, db) ∈ pd →
    (pd.map Prod.fst).Nodup →
    ((regenPersons hidden nodes pd).1).countP (isSpouseBetween A B) = 1
  | [], hmA, _, _ => by cases hmA
  | (cid, d) :: rest, hmA, hmB, hnd => by
    simp only [List.map_cons, List.nodup_cons] at hnd
    simp only [regenPersons, List.countP_append]
    by_cases hc1 : cid = A
    · have hd : d = da := by
        rcases List.mem_cons.mp hmA with h | h
        · exact (congrArg Prod.snd h).symm
        · exact absurd (List.mem_map_of_mem Prod.fst h) (hc1 ▸ hnd.1)
      have hmB2 : (B, db) ∈ rest := by
        rcases List.mem_cons.mp hmB with h | h
        · exact absurd (congrArg Prod.fst h).symm
            (fun hcb => hne (hc1 ▸ hcb))
        · exact h
      rw [hc1, hd,
        countP_regenStep_partner hsA hne hhid hnA hnB,
        countP_regenPersons_oneSide hsB hne hhid hnA hnB rest hmB2 hnd.2
          (fun p hp => fun hb =>
            (hc1 ▸ hnd.1) (hb ▸ List.mem_map_of_mem Prod.fst hp))]
      rcases lt_or_gt_of_ne hne with hlt | hgt
      · rw [if_pos hlt, if_neg (lt_asymm hlt)]
      · rw [if_neg (lt_asymm hgt), if_pos hgt]
    · by_cases hc2 : cid = B
      · have hd : d = db := by
          rcases List.mem_cons.mp hmB with h | h
          · exact (congrArg Prod.snd h).symm
          · exact absurd (List.mem_map_of_mem Prod.fst h) (hc2 ▸ hnd.1)
        have hmA2 : (A, da) ∈ rest := by
          rcases List.mem_cons.mp hmA with h | h
          · exact absurd (congrArg Prod.fst h).symm hc1
          · exact h
        have hstep : ((regenStep hidden nodes B db).1).countP
            (isSpouseBetween B A) = if B < A then 1 else 0 :=
          countP_regenStep_partner hsB (Ne.symm hne)
            (by rw [getConnectionKey_comm]; exact hhid) hnB hnA
        have hstep2 : ((regenStep hidden nodes B db).1).countP
            (isSpouseBetween A B) = if B < A then 1 else 0 := by
          rw [← hstep]
          exact List.countP_congr (fun e _ => by rw [isSpouseBetween_comm A B e])
        have hrest : ((regenPersons hidden nodes rest).1).countP
            (isSpouseBetween B A) = if A < B then 1 else 0 :=
          countP_regenPersons_oneSide hsA (Ne.symm hne)
            (by rw [getConnectionKey_comm]; exact hhid) hnB hnA rest hmA2
            hnd.2
            (fun p hp => fun hb =>
              (hc2 ▸ hnd.1) (hb ▸ List.mem_map_of_mem Prod.fst hp))
        have hrest2 : ((regenPersons hidden nodes rest).1).countP
            (isSpouseBetween A B) = if A < B then 1 else 0 := by
          rw [← hrest]
          exact List.countP_congr (fun e _ => by rw [isSpouseBetween_comm A B e])
        rw [hc2, hd, hstep2, hrest2]
        rcases lt_or_gt_of_ne hne with hlt | hgt
        · rw [if_pos hlt, if_neg (lt_asymm hlt)]
        · rw [if_neg (lt_asymm hgt), if_pos hgt]
      · have hmA2 : (A, da) ∈ rest := by
          rcases List.mem_cons.mp hmA with h | h
          · exact absurd (congrArg Prod.fst h).symm hc1
          · exact h
        have hmB2 : (B, db) ∈ rest := by
          rcases List.mem_cons.mp hmB with h | h
          · exact absurd (congrArg Prod.fst h).symm hc2
          · exact h
        rw [countP_regenStep_other hc1 hc2,
          countP_regenPersons_pair hsA hsB hne hhid hnA hnB rest hmA2 hmB2
            hnd.2]

/-- C1: for every store and suppression sets, one derivation run emits, for
each mutual spouse pair (A, B) with A ≠ B, both ids present as nodes and the
pair-key not hidden, exactly one spouse edge; moreover every spouse edge is
emitted from the partner whose id sorts lexicographically before the
the other.  The store is quantified as an arbitrary listing order with
distinct keys, so the count is independent of traversal order. -/
theorem spouse_pair_exactly_one_edge (s : AppState) (A B : String)
    (da db : PersonData)
    (hmA : (A, da) ∈ s.personData) (hmB : (B, db) ∈ s.personData)
    (hnodup : (s.personData.map Prod.fst).Nodup)
    (hsA : da.spouseId = B) (hsB : db.spouseId = A) (hne : A ≠ B)
    (hnA : containsKey s.nodes A = true) (hnB : containsKey s.nodes B = true)
    (hhid : s.hiddenConnections.contains (getConnectionKey A B) = false) :
    (regenerateConnections s).connections.countP (isSpouseBetween A B) = 1 ∧
    ∀ e ∈ (regenerateConnections s).connections, e.type = "spouse" →
      e.fromId < e.toId := by
  have hpdne : ¬ s.personData.isEmpty = true := by
    intro h
    rw [List.isEmpty_iff] at h
    rw [h] at hmA
    cases hmA
  unfold regenerateConnections
  rw [if_neg hpdne]
  constructor
  · show ((regenPersons s.hiddenConnections s.nodes s.personData).1 ++
      lineOnlyLoop s.hiddenConnections s.nodes
        s.lineOnlyConnections).countP (isSpouseBetween A B) = 1
    rw [List.countP_append]
    have hz : (lineOnlyLoop s.hiddenConnections s.nodes
        s.lineOnlyConnections).countP (isSpouseBetween A B) = 0 := by
      apply List.countP_eq_zero.mpr
      intro e he
      have ht := mem_lineOnlyLoop _ _ he
      simp [isSpouseBetween, ht]
    rw [hz,
      countP_regenPersons_pair hsA hsB hne hhid hnA hnB s.personData hmA hmB
        hnodup]
  · intro e he htype
    have he2 : e ∈ (regenPersons s.hiddenConnections s.nodes
        s.personData).1 ++ lineOnlyLoop s.hiddenConnections s.nodes
        s.lineOnlyConnections := he
    rcases List.mem_append.mp he2 with h | h
    · exact (mem_regenPersons _ _ h).2.2 htype
    · have hlo := mem_lineOnlyLoop _ _ h
      rw [hlo] at htype
      exact absurd htype (by decide)

/-- Witness for `spouse_pair_exactly_one_edge` on the concrete 5-person
tree and its mutual pair (p2, p3). -/
theorem spouse_pair_exactly_one_edge_witness :
    (("p2", ({ name := "B", gender := "m", spouseId := "p3" } : PersonData))
        ∈ ex5.personData ∧
     ("p3", ({ name := "C", gender := "f", spouseId := "p2" } : PersonData))
        ∈ ex5.personData ∧
     (ex5.personData.map Prod.fst).Nodup ∧
     ("p2" : String) ≠ "p3" ∧
     containsKey ex5.nodes "p2" = true ∧
     containsKey ex5.nodes "p3" = true ∧
     ex5.hiddenConnections.contains (getConnectionKey "p2" "p3") = false) ∧
    ((regenerateConnections ex5).connections.countP
        (isSpouseBetween "p2" "p3") = 1 ∧
     ∀ e ∈ (regenerateConnections ex5).connections, e.type = "spouse" →
       e.fromId < e.toId) :=
  ⟨by decide,
   spouse_pair_exactly_one_edge ex5 "p2" "p3"
     { name := "B", gender := "m", spouseId := "p3" }
     { name := "C", gender := "f", spouseId := "p2" }
     (by decide) (by decide) (by decide) rfl rfl (by decide) (by decide)
     (by decide) (by decide)⟩

/-! ### CleanupPass (C6) -/

theorem cleanRecord_of_clean {pid : String} {d : PersonData}
    (h1 : d.motherId ≠ pid) (h2 : d.fatherId ≠ pid) (h3 : d.spouseId ≠ pid) :
    cleanRecord pid d = (d, 0) := by
  simp only [cleanRecord, if_neg h3, if_neg h1, if_neg h2]

theorem cleanRecord_fields {pid : String} {d : PersonData} (hpid : pid ≠ "") :
    (cleanRecord pid d).1.motherId ≠ pid ∧
    (cleanRecord pid d).1.fatherId ≠ pid ∧
    (cleanRecord pid d).1.spouseId ≠ pid := by
  by_cases h3 : d.spouseId = pid <;> by_cases h1 : d.motherId = pid <;>
    by_cases h2 : d.fatherId = pid <;>
    simp [cleanRecord, h3, h1, h2, Ne.symm hpid]

theorem cleanupPass_of_clean :
    ∀ pd : List (String × PersonData),
    (∀ p ∈ pd, p.2.motherId ≠ p.1 ∧ p.2.fatherId ≠ p.1 ∧
      p.2.spouseId ≠ p.1) →
    cleanupPass pd = (pd, 0)
  | [], _ => rfl
  | (pid, d) :: rest, h => by
    have hhd := h (pid, d) (List.mem_cons_self _ _)
    have hrest := cleanupPass_of_clean rest
      (fun p hp => h p (List.mem_cons_of_mem _ hp))
    simp only [cleanupPass, cleanRecord_of_clean hhd.1 hhd.2.1 hhd.2.2, hrest]

theorem cleanupPass_clean :
    ∀ pd : List (String × PersonData),
    (∀ p ∈ pd, p.1 ≠ "") →
    ∀ p ∈ (cleanupPass pd).1, p.1 ≠ "" ∧
      (p.2.motherId ≠ p.1 ∧ p.2.fatherId ≠ p.1 ∧ p.2.spouseId ≠ p.1)
  | [], _, p, hp => by cases hp
  | (pid, d) :: rest, hids, p, hp => by
    have hpid : pid ≠ "" := hids (pid, d) (List.mem_cons_self _ _)
    rcases List.mem_cons.mp hp with h | h
    · rw [h]
      exact ⟨hpid, cleanRecord_fields hpid⟩
    · exact cleanupPass_clean rest
        (fun q hq => hids q (List.mem_cons_of_mem _ hq)) p h

/-- The one store mutation `regenerateConnections` can perform is the
self-spouse cleanup; without self-spouse records the store is returned
unchanged. -/
theorem regen_personData_of_noself (s : AppState)
    (h : ∀ p ∈ s.personData, p.2.spouseId ≠ p.1) :
    (regenerateConnections s).personData = s.personData := by
  unfold regenerateConnections
  by_cases he : s.personData.isEmpty
  · rw [if_pos he]
  · rw [if_neg he]
    exact regenPersons_store _ _ _ h

theorem cleanup_second_run (t : AppState)
    (h : cleanupPass t.personData = (t.personData, 0)) :
    cleanupInvalidRelationships t = (t, 0) := by
  unfold cleanupInvalidRelationships
  rw [h]
  rfl

/-- C6 (amended): `cleanupInvalidRelationships` clears every relational id
equal to the id of the record itself, and — provided no record is keyed by the empty
string — a second run immediately after the first changes nothing and
reports zero corrections.  (A record whose id is the empty string defeats
the bookkeeping: its empty relational fields compare equal to its id and are
re-reported as corrections on every run, although nothing changes.) -/
theorem cleanupInvalidRelationships_idempotent (s : AppState)
    (hids : ∀ p ∈ s.personData, p.1 ≠ "") :
    (∀ p ∈ ((cleanupInvalidRelationships s).1).personData,
      p.2.motherId ≠ p.1 ∧ p.2.fatherId ≠ p.1 ∧ p.2.spouseId ≠ p.1) ∧
    cleanupInvalidRelationships ((cleanupInvalidRelationships s).1)
      = ((cleanupInvalidRelationships s).1, 0) := by
  have hclean := cleanupPass_clean s.personData hids
  have hpd1 : ((cleanupInvalidRelationships s).1).personData
      = (cleanupPass s.personData).1 := by
    unfold cleanupInvalidRelationships
    by_cases hc : (cleanupPass s.personData).2 > 0
    · rw [if_pos hc]
      exact regen_personData_of_noself _
        (fun p hp => ((hclean p hp).2).2.2)
    · rw [if_neg hc]
  constructor
  · intro p hp
    rw [hpd1] at hp
    exact (hclean p hp).2
  · apply cleanup_second_run
    rw [hpd1]
    exact cleanupPass_of_clean _ (fun p hp => (hclean p hp).2)

/-- C6 counterexample: with a record keyed by the empty string, a second
cleanup run still reports three corrections (though it changes nothing), so
the pass is not idempotent in its reported count. -/
theorem cleanup_second_run_report_cex :
    (cleanupInvalidRelationships (cleanupInvalidRelationships exC6).1).2 = 3 ∧
    (cleanupInvalidRelationships (cleanupInvalidRelationships exC6).1).2
      ≠ 0 := by decide

/-- Witness for `cleanupInvalidRelationships_idempotent` on the concrete
5-person tree. -/
theorem cleanupInvalidRelationships_idempotent_witness :
    (∀ p ∈ ex5.personData, p.1 ≠ "") ∧
    ((∀ p ∈ ((cleanupInvalidRelationships ex5).1).personData,
       p.2.motherId ≠ p.1 ∧ p.2.fatherId ≠ p.1 ∧ p.2.spouseId ≠ p.1) ∧
     cleanupInvalidRelationships ((cleanupInvalidRelationships ex5).1)
       = ((cleanupInvalidRelationships ex5).1, 0)) :=
  ⟨by decide, cleanupInvalidRelationships_idempotent ex5 (by decide)⟩

/-! ### Bounded FIFO undo history (C7) -/

theorem pushOne_eq (u : List Snapshot) (x : Snapshot)
    (h : u.length ≤ maxUndoSize) :
    pushOne u x = (u ++ [x]).drop (u.length + 1 - maxUndoSize) := by
  unfold pushOne
  have hlen : (u ++ [x]).length = u.length + 1 := by simp
  by_cases hc : (u ++ [x]).length > maxUndoSize
  · rw [if_pos hc]
    rw [hlen] at hc
    have hd : u.length + 1 - maxUndoSize = 1 := by
      unfold maxUndoSize at *
      omega
    rw [hd]
  · rw [if_neg hc]
    rw [hlen] at hc
    have hd : u.length + 1 - maxUndoSize = 0 := by
      unfold maxUndoSize at *
      omega
    rw [hd, List.drop_zero]

theorem pushOne_length (u : List Snapshot) (x : Snapshot)
    (h : u.length ≤ maxUndoSize) :
    (pushOne u x).length ≤ maxUndoSize := by
  unfold pushOne
  have hlen : (u ++ [x]).length = u.length + 1 := by simp
  by_cases hc : (u ++ [x]).length > maxUndoSize
  · rw [if_pos hc]
    rw [List.length_drop, hlen]
    unfold maxUndoSize at *
    omega
  · rw [if_neg hc]
    rw [hlen]
    rw [hlen] at hc
    omega

theorem foldl_pushOne_length :
    ∀ (l : List Snapshot) (u : List Snapshot), u.length ≤ maxUndoSize →
    (l.foldl pushOne u).length ≤ maxUndoSize
  | [], _, h => h
  | x :: l, u, h => by
    simp only [List.foldl_cons]
    exact foldl_pushOne_length l (pushOne u x) (pushOne_length u x h)

theorem foldl_pushOne_eq :
    ∀ (l : List Snapshot) (u : List Snapshot), u.length ≤ maxUndoSize →
    l.foldl pushOne u = (u ++ l).drop (u.length + l.length - maxUndoSize)
  | [], u, h => by
    simp only [List.foldl_nil, List.append_nil, List.length_nil,
      Nat.add_zero]
    rw [Nat.sub_eq_zero_of_le h, List.drop_zero]
  | x :: l, u, h => by
    simp only [List.foldl_cons]
    rw [foldl_pushOne_eq l (pushOne u x) (pushOne_length u x h),
      pushOne_eq u x h]
    by_cases hc : u.length + 1 ≤ maxUndoSize
    · have h0 : u.length + 1 - maxUndoSize = 0 := Nat.sub_eq_zero_of_le hc
      rw [h0, List.drop_zero, List.append_assoc, List.singleton_append]
      congr 1
      simp only [List.length_append, List.length_singleton,
        List.length_cons, List.length_nil]
      omega
    · unfold maxUndoSize at *
      have h50 : u.length = 50 := by omega
      have h1 : u.length + 1 - 50 = 1 := by omega
      rw [h1]
      have hdlen : ((u ++ [x]).drop 1).length = u.length := by
        simp only [List.length_drop, List.length_append,
          List.length_singleton]
        omega
      rw [hdlen]
      have h2 : u.length + l.length - 50 = l.length := by omega
      have h3 : u.length + (x :: l).length - 50 = l.length + 1 := by
        simp only [List.length_cons]
        omega
      rw [h2, h3]
      have hle1 : 1 ≤ (u ++ [x]).length := by simp
      rw [← List.drop_append_of_le_length hle1, List.drop_drop,
        List.append_assoc, List.singleton_append]
      congr 1
      omega

/-- C7: `pushUndoState` pushes one snapshot and evicts the oldest entry
(`shift`) once the stack would exceed `maxUndoSize` (50); consequently, for
any starting stack within the bound, any sequence of pushed snapshots leaves
the stack within the bound and equal to exactly the most recent 50 pushes
(start stack included) — eviction is oldest-first. -/
theorem pushUndoState_bounded_fifo (s : AppState) (u l : List Snapshot)
    (h : u.length ≤ maxUndoSize) :
    (pushUndoState s).undoStack = pushOne s.undoStack (mkSnapshot s) ∧
    (pushUndoState s).redoStack = [] ∧
    (l.foldl pushOne u).length ≤ maxUndoSize ∧
    l.foldl pushOne u = (u ++ l).drop (u.length + l.length - maxUndoSize) :=
  ⟨rfl, rfl, foldl_pushOne_length l u h, foldl_pushOne_eq l u h⟩

/-- Witness for `pushUndoState_bounded_fifo` at concrete inputs. -/
theorem pushUndoState_bounded_fifo_witness :
    (([] : List Snapshot).length ≤ maxUndoSize) ∧
    ((pushUndoState ex5).undoStack
        = pushOne ex5.undoStack (mkSnapshot ex5) ∧
     (pushUndoState ex5).redoStack = [] ∧
     (([mkSnapshot ex5].foldl pushOne ([] : List Snapshot)).length
        ≤ maxUndoSize) ∧
     [mkSnapshot ex5].foldl pushOne ([] : List Snapshot)
        = (([] : List Snapshot) ++ [mkSnapshot ex5]).drop
            (([] : List Snapshot).length + [mkSnapshot ex5].length
              - maxUndoSize)) :=
  ⟨by decide, pushUndoState_bounded_fifo ex5 [] [mkSnapshot ex5] (by decide)⟩

/-! ### Round trip, load rejection, snapshot aliasing (C2, C3, C8) -/

/-- C2: on the fixed 5-person tree (one mutual spouse pair, one parent-child
edge), building the persisted snapshot with `getCurrentState` and loading it
with `processLoadedData` into a cleared store reproduces an equivalent
RelationshipStore: the same person ids in the same order, the same
motherId/fatherId/spouseId values, and the same x/y positions. -/
theorem roundTrip_fixed_tree :
    ((processLoadedData {} (savedToLoaded (getCurrentState ex5 1000))).1).personData.map
        (fun p => (p.1, p.2.motherId, p.2.fatherId, p.2.spouseId))
      = ex5.personData.map
          (fun p => (p.1, p.2.motherId, p.2.fatherId, p.2.spouseId)) ∧
    ((processLoadedData {} (savedToLoaded (getCurrentState ex5 1000))).1).nodes.map
        (fun p => (p.1, p.2.x, p.2.y))
      = ex5.nodes.map (fun p => (p.1, p.2.x, p.2.y)) := by decide

/-- C3 (code bug): a parsed snapshot carrying only a legacy `people`
collection — no version marker, no persons — leaves the in-memory state
untouched, as the claim demands, but is reported to the caller as a
successful restore (`return true`, with the success notification), not as an
"unrecognized format" failure: the `state.people` branch of `loadCachedState`
only logs a warning and then falls through to the success path. -/
theorem loadCachedState_people_reports_success :
    loadCachedState ex5 (some { people := some [] }) = (ex5, true) := by
  decide

/-- One live person record (reference 0, empty `spouseId`) and its id in the
store. -/
def exH8 : HeapModel.HState :=
  { heap := [{ name := "A" }]
    personData := [("p1", 0)]
    undoStack := []
    redoStack := [] }

/-- C8 (code bug): `pushUndoState` copies the `personData` map but shares
the person record objects.  At push time the snapshot views `spouseId = ""`;
after the in-place mutation `personAData.spouseId = personB` (the
`createConnection` spouse case) the very same snapshot — no stack entry was
touched — views the new spouse id, so the snapshot no longer equals the
state as it was at push time. -/
theorem pushUndoState_snapshot_aliased :
    ((HeapModel.viewSnapshot (HeapModel.pushUndoState exH8).heap
        (((HeapModel.pushUndoState exH8).undoStack).getD 0 [])).map
      (fun p => (p.1, p.2.spouseId)) = [("p1", "")]) ∧
    ((HeapModel.assignSpouseInPlace (HeapModel.pushUndoState exH8)
        "p1" "p2").undoStack
      = (HeapModel.pushUndoState exH8).undoStack) ∧
    ((HeapModel.viewSnapshot
        (HeapModel.assignSpouseInPlace (HeapModel.pushUndoState exH8)
          "p1" "p2").heap
        (((HeapModel.assignSpouseInPlace (HeapModel.pushUndoState exH8)
          "p1" "p2").undoStack).getD 0 [])).map
      (fun p => (p.1, p.2.spouseId)) = [("p1", "p2")]) := by decide
